import Mathlib

/-!
Shallow embedding of the CryptoStrategyAnalysis core
(trading_strategy.py and metrics.py).

Modelling conventions:
* Prices and returns are rationals.  A pandas cell that may hold NaN is an
  Option value, with none standing for a missing / non-finite float (NaN
  or an infinity produced by division by zero); the data model guarantees
  positive close prices, so the distinction never matters on the inputs
  the claims quantify over.
* A pandas DataFrame is a record of its columns.  The source mutates the
  shared frame in place; the embedding passes the frame explicitly, so a
  call site that mutates in the source is a call returning the updated
  record here.  A column that has not been created yet is the empty list.
* Comparisons involving NaN are false, as in numpy and pandas.
-/

set_option allowUnsafeReducibility true
attribute [local semireducible] Rat.add Rat.mul Rat.inv Rat.sub Rat.div Rat.neg Rat.blt

/-- One pandas cell of a float column: some value, or a missing value. -/
abbrev Cell := Option ℚ

/-- Comparison used by np.where(SMA_Short greater-than SMA_Long, 1, 0):
any comparison with a missing value is false. -/
def optGT : Cell → Cell → Bool
  | some a, some b => decide (b < a)
  | _, _ => false

/-- Elementwise product of two float columns; NaN propagates. -/
def optMul : Cell → Cell → Cell
  | some a, some b => some (a * b)
  | _, _ => none

/-- Simple moving average cell at index i: defined once the trailing window
of w observations is fully populated, that is for w at most i+1 (and the
pandas window must be at least 1), as in rolling(window=w).mean(). -/
def smaAt (w : ℕ) (cs : List ℚ) (i : ℕ) : Cell :=
  if 1 ≤ w ∧ w ≤ i + 1 then some (((cs.drop (i + 1 - w)).take w).sum / (w : ℚ)) else none

/-- The full rolling-mean column (trading_strategy.py lines 19-20). -/
def sma (w : ℕ) (cs : List ℚ) : List Cell :=
  (List.range cs.length).map (smaAt w cs)

/-- Signal cell at index i (trading_strategy.py lines 23-26): the column is
initialised to 0, then indices from short_window on get
np.where(SMA_Short greater-than SMA_Long, 1, 0). -/
def signalAt (sw lw : ℕ) (cs : List ℚ) (i : ℕ) : ℤ :=
  if sw ≤ i ∧ optGT (smaAt sw cs i) (smaAt lw cs i) = true then 1 else 0

/-- The Signal column derived from the close prices. -/
def sigList (sw lw : ℕ) (cs : List ℚ) : List ℤ :=
  (List.range cs.length).map (signalAt sw lw cs)

/-- The DataFrame threaded through the pipeline: the Close column plus every
column the core writes.  Columns not yet created are empty lists. -/
structure DataFrame where
  close : List ℚ
  sma_short : List Cell := []
  sma_long : List Cell := []
  signal : List ℤ := []
  position : List ℤ := []
  managed_position : List ℤ := []
  daily_return : List Cell := []
  strategy_return : List Cell := []
  cum_market : List Cell := []
  cum_strategy : List Cell := []
deriving Repr, DecidableEq

/-- A freshly fetched frame: only price data, no derived columns. -/
def mkDf (cs : List ℚ) : DataFrame := { close := cs }

/-- apply_moving_average_strategy (trading_strategy.py lines 6-29): writes
the two SMA columns, the Signal column, and Position = Signal.diff().fillna(0). -/
def apply_moving_average_strategy (df : DataFrame) (sw lw : ℕ) : DataFrame :=
  { df with
    sma_short := sma sw df.close
    sma_long := sma lw df.close
    signal := sigList sw lw df.close
    position := (List.range df.close.length).map (fun i =>
      if i = 0 then 0 else signalAt sw lw df.close i - signalAt sw lw df.close (i - 1)) }

/-- One iteration of the risk-management loop (trading_strategy.py lines
46-60) at index i, given the already-computed state at i-1: first the
signal-driven value (an index whose signal is neither 1 nor 0 keeps the
initialised 0), then the stop-loss / take-profit override when the
previous managed position is 1. -/
def mpNext (sl tp : ℚ) (prev : ℤ) (pc cc : ℚ) (sg : ℤ) : ℤ :=
  let base : ℤ := if sg = 1 then 1 else if sg = 0 then 0 else 0
  if prev = 1 then
    if cc < pc * (1 - sl) then 0
    else if pc * (1 + tp) < cc then 0
    else base
  else base

/-- The forward pass of the risk loop over indices 1..n-1, carrying the
previous managed position and previous close; each list entry is the pair
(close, signal) at the current index. -/
def riskGo (sl tp : ℚ) : ℤ → ℚ → List (ℚ × ℤ) → List ℤ
  | _, _, [] => []
  | prev, pc, (cc, sg) :: rest =>
      mpNext sl tp prev pc cc sg :: riskGo sl tp (mpNext sl tp prev pc cc sg) cc rest

/-- The Managed_Position column: initialised to 0 (so index 0 stays 0), then
the sequential loop from index 1 (trading_strategy.py lines 44-60). -/
def managedCol (sl tp : ℚ) (cs : List ℚ) (sig : List ℤ) : List ℤ :=
  match cs with
  | [] => []
  | c0 :: rest => 0 :: riskGo sl tp 0 c0 (rest.zip (sig.drop 1))

/-- apply_risk_management (trading_strategy.py lines 31-62).  The source
performs no validation of stop_loss or take_profit. -/
def apply_risk_management (df : DataFrame) (sl tp : ℚ) : DataFrame :=
  { df with managed_position := managedCol sl tp df.close df.signal }

/-- pct_change cell at index i: close[i]/close[i-1] - 1, missing at index 0;
a zero previous close would give a non-finite float, modelled as missing
(close prices are positive in the data model). -/
def pctAt (cs : List ℚ) (i : ℕ) : Cell :=
  if i = 0 then none
  else if cs.getD (i - 1) 0 = 0 then none
  else some (cs.getD i 0 / cs.getD (i - 1) 0 - 1)

/-- Managed_Position.shift(1) read at index i: missing at index 0, the
integer managed position at i-1 (as a float) afterwards. -/
def shiftAt (mp : List ℤ) (i : ℕ) : Cell :=
  if i = 0 then none else some ((mp.getD (i - 1) 0 : ℤ) : ℚ)

/-- Cumulative product with skipna semantics of pandas cumprod: a missing
cell stays missing and does not update the running product. -/
def cumGo (acc : ℚ) : List Cell → List Cell
  | [] => []
  | none :: rest => none :: cumGo acc rest
  | some x :: rest => some (acc * x) :: cumGo (acc * x) rest

/-- Cumulative return column: (1 + r).cumprod() - 1. -/
def cumRet (l : List Cell) : List Cell :=
  (cumGo 1 (l.map (Option.map (fun r => 1 + r)))).map (Option.map (fun x => x - 1))

/-- backtest_strategy (trading_strategy.py lines 64-84): Daily_Return,
Strategy_Return = Daily_Return * Managed_Position.shift(1), and the two
cumulative-return columns. -/
def backtest_strategy (df : DataFrame) : DataFrame :=
  { df with
    daily_return := (List.range df.close.length).map (pctAt df.close)
    strategy_return := (List.range df.close.length).map (fun i =>
      optMul (pctAt df.close i) (shiftAt df.managed_position i))
    cum_market := cumRet ((List.range df.close.length).map (pctAt df.close))
    cum_strategy := cumRet ((List.range df.close.length).map (fun i =>
      optMul (pctAt df.close i) (shiftAt df.managed_position i))) }

/-- Last cell of a column, as read by .iloc[-1] (all frames scored by the
grid search are nonempty; an empty column is read as a missing value). -/
def lastCell (l : List Cell) : Cell :=
  match l.getLast? with
  | some c => c
  | none => none

/-- One grid cell of the hyperparameter search. -/
structure Params where
  short_window : ℕ
  long_window : ℕ
  stop_loss : ℚ
  take_profit : ℚ
deriving Repr, DecidableEq

/-- The enumeration order of sklearn.model_selection.ParameterGrid: keys
sorted alphabetically (long_window, short_window, stop_loss, take_profit),
itertools.product with the last axis varying fastest. -/
def paramCombos (sws lws : List ℕ) (sls tps : List ℚ) : List Params :=
  lws.flatMap fun lw => sws.flatMap fun sw => sls.flatMap fun sl => tps.map fun tp =>
    { short_window := sw, long_window := lw, stop_loss := sl, take_profit := tp }

/-- The per-cell pipeline run by the grid search (trading_strategy.py lines
112-116): moving-average signals, then risk management, then backtest. -/
def pipeline (df : DataFrame) (p : Params) : DataFrame :=
  backtest_strategy (apply_risk_management
    (apply_moving_average_strategy df p.short_window p.long_window) p.stop_loss p.take_profit)

/-- Score of a grid cell: terminal cumulative strategy return of the
pipeline run on the given close prices (trading_strategy.py line 119). -/
def pipeScore (cs : List ℚ) (p : Params) : Cell :=
  lastCell (pipeline (mkDf cs) p).cum_strategy

/-- The comparison cumulative_return greater-than best_return of line 125:
the first argument is the score (none meaning NaN, which is never greater),
the second the best so far (none meaning the initial -infinity, which every
real number exceeds). -/
def scoreBeats : Cell → Cell → Bool
  | none, _ => false
  | some _, none => true
  | some s, some r => decide (r < s)

/-- The fold of the grid-search loop (trading_strategy.py lines 110-127):
the frame is threaded through the iterations because the source mutates the
shared table in place; best_params and best_return start as None / -inf. -/
def tuneAux : DataFrame → Option Params → Cell → List Params → Option Params
  | _, best, _, [] => best
  | df, best, bestR, p :: rest =>
      if scoreBeats (lastCell (pipeline df p).cum_strategy) bestR then
        tuneAux (pipeline df p) (some p) (lastCell (pipeline df p).cum_strategy) rest
      else
        tuneAux (pipeline df p) best bestR rest

/-- tune_hyperparameters (trading_strategy.py lines 86-130). -/
def tune_hyperparameters (df : DataFrame) (sws lws : List ℕ) (sls tps : List ℚ) : Option Params :=
  tuneAux df none none (paramCombos sws lws sls tps)

/-- Mean of a float series with pandas skipna semantics: NaN cells are
dropped; the mean of no values is NaN. -/
def seriesMean (l : List Cell) : Cell :=
  let v := l.filterMap id
  if v.length = 0 then none else some (v.sum / (v.length : ℚ))

/-- Sample variance (ddof = 1, skipna) of a float series, the square of the
pandas std used by the Sharpe computation; fewer than two values give NaN. -/
def seriesVar (l : List Cell) : Cell :=
  let v := l.filterMap id
  if v.length < 2 then none
  else some ((v.map (fun x => (x - v.sum / (v.length : ℚ)) ^ 2)).sum / ((v.length - 1 : ℕ) : ℚ))

/-- Sharpe computation of print_performance_metrics (metrics.py line 35):
mean/std times the square root of 252.  The square roots are irrational, so
the model keeps the rational data: a defined result is the pair
(mean, sample variance) with nonzero variance, standing for the finite
float mean/sqrt(variance)*sqrt(252); none stands for the non-finite float
produced when the mean is NaN, the variance is NaN, or the std is zero
(0/0 is NaN, x/0 is an infinity). -/
def sharpeMetric (l : List Cell) : Option (ℚ × ℚ) :=
  match seriesMean l, seriesVar l with
  | some m, some v => if v = 0 then none else some (m, v)
  | _, _ => none

/-- Error taxonomy named by the specification for the single-run entry
points.  The source never raises either error. -/
inductive StrategyError where
  | insufficientHistory
  | invalidRiskParameter
deriving Repr, DecidableEq

/-- apply_moving_average_strategy viewed as a fallible call: the source has
no validation or raise statement on any input, so every run returns
normally with the computed frame. -/
def applyMaE (df : DataFrame) (sw lw : ℕ) : Except StrategyError DataFrame :=
  Except.ok (apply_moving_average_strategy df sw lw)

/-- apply_risk_management viewed as a fallible call: the source has no
validation of stop_loss or take_profit and no raise statement, so every
run returns normally with the computed frame. -/
def applyRiskE (df : DataFrame) (sl tp : ℚ) : Except StrategyError DataFrame :=
  Except.ok (apply_risk_management df sl tp)

/-! Helper lemmas about the embedding. -/

/-- Reading a column built as a map over the index range. -/
lemma rangeMap_getD {α : Type} (f : ℕ → α) (n i : ℕ) (d : α) (h : i < n) :
    ((List.range n).map f).getD i d = f i := by
  rw [List.getD_eq_getElem _ _ (by simpa using h)]
  simp

/-- Every value of mpNext is 0 or 1: the signal-driven value is 0 or 1 and
the overrides write 0. -/
lemma mpNext_mem (sl tp : ℚ) (prev : ℤ) (pc cc : ℚ) (sg : ℤ) :
    mpNext sl tp prev pc cc sg = 0 ∨ mpNext sl tp prev pc cc sg = 1 := by
  unfold mpNext
  dsimp only
  split_ifs <;> simp

lemma riskGo_length (sl tp : ℚ) (l : List (ℚ × ℤ)) :
    ∀ (prev : ℤ) (pc : ℚ), (riskGo sl tp prev pc l).length = l.length := by
  induction l with
  | nil => intro prev pc; rfl
  | cons hd t ih =>
    intro prev pc
    obtain ⟨cc, sg⟩ := hd
    simp [riskGo, ih]

lemma riskGo_mem (sl tp : ℚ) (l : List (ℚ × ℤ)) :
    ∀ (prev : ℤ) (pc : ℚ) (x : ℤ), x ∈ riskGo sl tp prev pc l → x = 0 ∨ x = 1 := by
  induction l with
  | nil => intro prev pc x hx; simp [riskGo] at hx
  | cons hd t ih =>
    intro prev pc x hx
    obtain ⟨cc, sg⟩ := hd
    rcases (List.mem_cons).1 hx with h | h
    · exact h ▸ mpNext_mem sl tp prev pc cc sg
    · exact ih _ _ x h

/-- The value at index k+1 of the risk loop in terms of the value at k and
the (close, signal) pairs. -/
lemma riskGo_getD_succ (sl tp : ℚ) (l : List (ℚ × ℤ)) :
    ∀ (k : ℕ) (prev : ℤ) (pc : ℚ), k + 1 < l.length →
      (riskGo sl tp prev pc l).getD (k + 1) 0 =
        mpNext sl tp ((riskGo sl tp prev pc l).getD k 0)
          (l.getD k (0, 0)).1 (l.getD (k + 1) (0, 0)).1 (l.getD (k + 1) (0, 0)).2 := by
  induction l with
  | nil => intro k prev pc h; simp at h
  | cons hd t ih =>
    intro k prev pc h
    obtain ⟨cc, sg⟩ := hd
    cases k with
    | zero =>
      cases t with
      | nil => simp at h
      | cons hd2 t2 =>
        obtain ⟨cc2, sg2⟩ := hd2
        simp [riskGo]
    | succ k =>
      have h2 : k + 1 < t.length := by simpa using h
      simpa [riskGo] using ih k (mpNext sl tp prev pc cc sg) cc h2

lemma managedCol_getD_zero (sl tp : ℚ) (cs : List ℚ) (sig : List ℤ) :
    (managedCol sl tp cs sig).getD 0 0 = 0 := by
  cases cs <;> rfl

lemma managedCol_mem (sl tp : ℚ) (cs : List ℚ) (sig : List ℤ) (x : ℤ)
    (hx : x ∈ managedCol sl tp cs sig) : x = 0 ∨ x = 1 := by
  cases cs with
  | nil => simp [managedCol] at hx
  | cons c0 rest =>
    rcases (List.mem_cons).1 hx with h | h
    · exact Or.inl h
    · exact riskGo_mem sl tp _ _ _ x h

/-- The element at a positive index of the zipped (close, signal) pairs. -/
lemma zipPairs_getD (rest : List ℚ) (sig : List ℤ) (j : ℕ)
    (hj : j < rest.length) (hs : sig.length = rest.length + 1) :
    (rest.zip (sig.drop 1)).getD j (0, 0) = (rest.getD j 0, sig.getD (j + 1) 0) := by
  have hdl : (sig.drop 1).length = rest.length := by simp [hs]
  have hzl : (rest.zip (sig.drop 1)).length = rest.length := by
    simp only [List.length_zip, hdl, Nat.min_self]
  have hj2 : j < (rest.zip (sig.drop 1)).length := by omega
  rw [List.getD_eq_getElem _ _ hj2, List.getElem_zip]
  have hjs : j < (sig.drop 1).length := by omega
  have hjsig : 1 + j < sig.length := by omega
  rw [List.getD_eq_getElem _ _ hj, List.getD_eq_getElem _ _ (by omega : j + 1 < sig.length)]
  have : (sig.drop 1)[j] = sig[1 + j] := List.getElem_drop sig
  simp [this, Nat.add_comm 1 j]

/-- The sequential recurrence of the Managed_Position column: for every
index t from 1 on, the value is mpNext of the value at t-1 and the current
bar. -/
lemma managedCol_getD_succ (sl tp : ℚ) (cs : List ℚ) (sig : List ℤ) (t : ℕ)
    (ht : 1 ≤ t) (htl : t < cs.length) (hs : sig.length = cs.length) :
    (managedCol sl tp cs sig).getD t 0 =
      mpNext sl tp ((managedCol sl tp cs sig).getD (t - 1) 0)
        (cs.getD (t - 1) 0) (cs.getD t 0) (sig.getD t 0) := by
  cases cs with
  | nil => simp at htl
  | cons c0 rest =>
    obtain ⟨k, rfl⟩ : ∃ k, t = k + 1 := ⟨t - 1, by omega⟩
    have hrl : k < rest.length := by simpa using htl
    have hs2 : sig.length = rest.length + 1 := by simpa using hs
    have hzl : (rest.zip (sig.drop 1)).length = rest.length := by
      simp [List.length_zip, hs2]
    simp only [managedCol, List.getD_cons_succ, Nat.add_sub_cancel]
    cases k with
    | zero =>
      rcases hzp : rest.zip (sig.drop 1) with _ | ⟨p0, ptail⟩
      · rw [hzp] at hzl; simp at hzl; omega
      · have hp0 : p0 = (rest.getD 0 0, sig.getD 1 0) := by
          have := zipPairs_getD rest sig 0 hrl hs2
          rw [hzp] at this
          simpa using this
        simp [riskGo, hp0, List.getD_cons_zero]
    | succ k =>
      have hk1 : k + 1 < (rest.zip (sig.drop 1)).length := by omega
      rw [riskGo_getD_succ sl tp _ k 0 c0 hk1]
      rw [zipPairs_getD rest sig k (by omega) hs2,
        zipPairs_getD rest sig (k + 1) (by omega) hs2]
      simp [List.getD_cons_succ]

/-! Claim theorems. -/

/-- C1: for every price series and every date index t at least 1, the
risk-managed position at t is: target Long (1) if the raw signal at t is
Up (1) and Flat (0) if it is Down (0); if the managed position at t-1 was
Long, the target is forced to Flat when close[t] is below
close[t-1]*(1 - stop_loss), and otherwise forced to Flat when close[t] is
above close[t-1]*(1 + take_profit); the resulting target is the position
at t. -/
theorem c1_risk_position_update (df : DataFrame) (sl tp : ℚ) (t : ℕ)
    (ht : 1 ≤ t) (htl : t < df.close.length) (hs : df.signal.length = df.close.length) :
    (apply_risk_management df sl tp).managed_position.getD t 0 =
      if (apply_risk_management df sl tp).managed_position.getD (t - 1) 0 = 1 ∧
          df.close.getD t 0 < df.close.getD (t - 1) 0 * (1 - sl) then 0
      else if (apply_risk_management df sl tp).managed_position.getD (t - 1) 0 = 1 ∧
          df.close.getD (t - 1) 0 * (1 + tp) < df.close.getD t 0 then 0
      else if df.signal.getD t 0 = 1 then 1 else 0 := by
  simp only [apply_risk_management]
  rw [managedCol_getD_succ sl tp df.close df.signal t ht htl hs]
  unfold mpNext
  dsimp only
  split_ifs <;> simp_all <;> linarith

/-- Witness for C1, at the spec's own example numbers: with stop_loss 1/20
and prior close 100 while Long, a current close of 94 is forced Flat, and
a current close of 96 keeps the signal-driven Long target. -/
theorem c1_witness :
    (apply_risk_management
        { close := [100, 100, 94], signal := [1, 1, 1] } (1/20) (1/10)).managed_position.getD 2 0
        = 0 ∧
    (apply_risk_management
        { close := [100, 100, 96], signal := [1, 1, 1] } (1/20) (1/10)).managed_position.getD 2 0
        = 1 := by
  constructor
  · rw [c1_risk_position_update _ _ _ 2 (by decide) (by decide) (by decide)]
    decide
  · rw [c1_risk_position_update _ _ _ 2 (by decide) (by decide) (by decide)]
    decide

/-- C3, counterexample: the backtest step does not leave its input frame
unchanged.  On the frame produced by the signal and risk steps for closes
[1, 2], the call writes the return columns into the shared table, so the
table after the call differs from the table before it. -/
theorem c3_counterexample :
    backtest_strategy (apply_risk_management
        (apply_moving_average_strategy (mkDf [1, 2]) 1 2) (1/2) (1/2)) ≠
      apply_risk_management (apply_moving_average_strategy (mkDf [1, 2]) 1 2) (1/2) (1/2) := by
  decide

/-- C3, amended: the backtest step is a deterministic function of its input
frame, but it updates the shared table in place, writing the Daily_Return,
Strategy_Return and cumulative return columns; the price data and the
position data (Close, the two SMA columns, Signal, Position and
Managed_Position) are left unchanged. -/
theorem c3_backtest_frame (df : DataFrame) :
    (backtest_strategy df).close = df.close ∧
    (backtest_strategy df).sma_short = df.sma_short ∧
    (backtest_strategy df).sma_long = df.sma_long ∧
    (backtest_strategy df).signal = df.signal ∧
    (backtest_strategy df).position = df.position ∧
    (backtest_strategy df).managed_position = df.managed_position :=
  ⟨rfl, rfl, rfl, rfl, rfl, rfl⟩

/-- C4, counterexample: the grid search has no validity filter.  With
short_windows = [5] and long_windows = [2] the single combination has
short_window greater than long_window, yet it is scored and returned as
the best parameter set. -/
theorem c4_counterexample :
    tune_hyperparameters (mkDf [1, 2, 3]) [5] [2] [1/2] [1/2] =
      some { short_window := 5, long_window := 2, stop_loss := 1/2, take_profit := 1/2 } := by
  decide

/-- C4, amended: no combination is skipped.  The enumerated grid is exactly
the Cartesian product of the four axes, so combinations with short_window
at least long_window are scored like any other, and (per the
counterexample) such a combination can be returned as best. -/
theorem c4_no_skip (sws lws : List ℕ) (sls tps : List ℚ) (p : Params) :
    p ∈ paramCombos sws lws sls tps ↔
      p.short_window ∈ sws ∧ p.long_window ∈ lws ∧
      p.stop_loss ∈ sls ∧ p.take_profit ∈ tps := by
  simp only [paramCombos, List.mem_flatMap, List.mem_map]
  constructor
  · rintro ⟨lw, hlw, sw, hsw, sl, hsl, tp, htp, rfl⟩
    exact ⟨hsw, hlw, hsl, htp⟩
  · rintro ⟨h1, h2, h3, h4⟩
    exact ⟨p.long_window, h2, p.short_window, h1, p.stop_loss, h3, p.take_profit, h4, rfl⟩

/-- C5, counterexample: with 3 price observations and long_window 5 the
series length is at most the long window, yet signal generation returns
normally instead of failing with InsufficientHistory. -/
theorem c5_counterexample :
    ∃ d, applyMaE (mkDf [1, 2, 3]) 1 5 = Except.ok d :=
  ⟨_, rfl⟩

/-- C5, amended: signal generation never fails.  The source validates
nothing: for every frame and every pair of windows the call returns
normally, producing a full-length Signal column (indices whose averages
are undefined simply compare as false and stay Down). -/
theorem c5_never_fails (df : DataFrame) (sw lw : ℕ) :
    (∃ d, applyMaE df sw lw = Except.ok d) ∧
    (apply_moving_average_strategy df sw lw).signal.length = df.close.length :=
  ⟨⟨_, rfl⟩, by simp [apply_moving_average_strategy, sigList]⟩

/-- C6, counterexample: a stop_loss of 2 lies outside (0,1), yet the risk
overlay returns normally instead of failing with InvalidRiskParameter. -/
theorem c6_counterexample :
    ∃ d, applyRiskE (apply_moving_average_strategy (mkDf [1, 2, 3]) 1 2) 2 (1/10) =
      Except.ok d :=
  ⟨_, rfl⟩

/-- C6, amended: the risk overlay never fails.  The source validates
neither stop_loss nor take_profit: for every frame and every pair of
parameters, inside or outside (0,1), the call returns normally and every
managed position it writes is 0 or 1. -/
theorem c6_never_fails (df : DataFrame) (sl tp : ℚ) :
    (∃ d, applyRiskE df sl tp = Except.ok d) ∧
    ∀ x ∈ (apply_risk_management df sl tp).managed_position, x = 0 ∨ x = 1 :=
  ⟨⟨_, rfl⟩, fun x hx => managedCol_mem sl tp df.close df.signal x hx⟩

/-- Witness for C6 at a concrete frame and an out-of-range stop_loss. -/
theorem c6_witness : (0 : ℤ) = 0 ∨ (0 : ℤ) = 1 :=
  (c6_never_fails (mkDf [1, 2]) 2 (1/10)).2 0 (by decide)

/-- C10: no operation of the pipeline modifies the Close column, and one
pipeline run is a function of the Close column and its own parameters
alone: running it on a frame holding leftover derived columns of earlier
runs gives the same result as running it on a fresh frame holding only
the same closes; the grid search result likewise depends only on the
Close column. -/
theorem c10_close_immutable (df : DataFrame) (p : Params) (sw lw : ℕ) (sl tp : ℚ)
    (sws lws : List ℕ) (sls tps : List ℚ) :
    (apply_moving_average_strategy df sw lw).close = df.close ∧
    (apply_risk_management df sl tp).close = df.close ∧
    (backtest_strategy df).close = df.close ∧
    pipeline df p = pipeline (mkDf df.close) p ∧
    tune_hyperparameters df sws lws sls tps =
      tune_hyperparameters (mkDf df.close) sws lws sls tps := by
  refine ⟨rfl, rfl, rfl, rfl, ?_⟩
  unfold tune_hyperparameters
  cases paramCombos sws lws sls tps with
  | nil => rfl
  | cons p0 rest => rfl

lemma optGT_true_iff (a b : Cell) :
    optGT a b = true ↔ ∃ x y, a = some x ∧ b = some y ∧ y < x := by
  cases a <;> cases b <;> simp [optGT]

lemma smaAt_some_bounds {w : ℕ} {cs : List ℚ} {i : ℕ} {x : ℚ}
    (h : smaAt w cs i = some x) : 1 ≤ w ∧ w ≤ i + 1 := by
  by_contra hc
  simp [smaAt, hc] at h

/-- C7, counterexample: with closes [1, 2, 3], short_window 1 and
long_window 2, the flag at index 1 is Up although 1 is smaller than
long_window: the comparison already takes effect at index
long_window - 1, where the long average is first defined, not at index
long_window. -/
theorem c7_counterexample :
    (apply_moving_average_strategy (mkDf [1, 2, 3]) 1 2).signal.getD 1 0 = 1 := by
  decide

/-- C7, amended: for short_window below long_window, the trend flag at t is
Up (1) exactly when the long window is fully populated at t, that is
long_window is at most t + 1 (one date earlier than the claim's index
long_window), and the short average exceeds the long average there;
every other date carries Down (0). -/
theorem c7_signal_window (cs : List ℚ) (sw lw t : ℕ)
    (hw : sw < lw) (ht : t < cs.length) :
    (apply_moving_average_strategy (mkDf cs) sw lw).signal.getD t 0 = 1 ↔
      (lw ≤ t + 1 ∧ optGT (smaAt sw cs t) (smaAt lw cs t) = true) := by
  show (sigList sw lw cs).getD t 0 = 1 ↔ _
  unfold sigList
  rw [rangeMap_getD _ _ _ _ ht]
  unfold signalAt
  split_ifs with h
  · simp only [show (1 : ℤ) = 1 ↔ True by norm_num, true_iff]
    obtain ⟨x, y, _, hy, _⟩ := (optGT_true_iff _ _).1 h.2
    exact ⟨(smaAt_some_bounds hy).2, h.2⟩
  · simp only [show (0 : ℤ) = 1 ↔ False by norm_num, false_iff]
    rintro ⟨h1, h2⟩
    exact h ⟨by omega, h2⟩

/-- Witness for C7 at closes [1, 2, 3], windows 1 and 2, date index 2. -/
theorem c7_witness :
    (apply_moving_average_strategy (mkDf [1, 2, 3]) 1 2).signal.getD 2 0 = 1 ↔
      (2 ≤ 2 + 1 ∧ optGT (smaAt 1 [1, 2, 3] 2) (smaAt 2 [1, 2, 3] 2) = true) :=
  c7_signal_window [1, 2, 3] 1 2 2 (by decide) (by decide)

lemma pipeline_close (df : DataFrame) (p : Params) : (pipeline df p).close = df.close := rfl

/-- A pipeline run is determined by the Close column of the frame it runs
on: leftover derived columns from earlier grid cells are fully rewritten. -/
lemma pipeline_mk_close (df : DataFrame) (p : Params) :
    pipeline df p = pipeline (mkDf df.close) p := rfl

lemma pipeScore_spec (df : DataFrame) (p : Params) :
    lastCell (pipeline df p).cum_strategy = pipeScore df.close p := by
  rw [pipeScore, ← pipeline_mk_close]

lemma scoreBeats_self (s : ℚ) : scoreBeats (some s) (some s) = false := by
  simp [scoreBeats]

/-- Once the running best holds score s, later cells scoring exactly s
never replace it: the comparison is strict. -/
lemma tuneAux_ties_keep (s : ℚ) (b : Params) :
    ∀ (ps : List Params) (df : DataFrame),
      (∀ p ∈ ps, pipeScore df.close p = some s) →
      tuneAux df (some b) (some s) ps = some b := by
  intro ps
  induction ps with
  | nil => intro df _; rfl
  | cons p rest ih =>
    intro df h
    have hsc : lastCell (pipeline df p).cum_strategy = some s := by
      rw [pipeScore_spec]
      exact h p (List.mem_cons_self p rest)
    simp only [tuneAux, hsc, scoreBeats_self, if_false, Bool.false_eq_true]
    apply ih
    intro q hq
    rw [pipeline_close]
    exact h q (List.mem_cons_of_mem p hq)

/-- C8: the running best is replaced only on a strictly greater score, so
when every enumerated parameter set attains the same (defined) terminal
cumulative strategy return, the grid search returns the first combination
in the ParameterGrid enumeration order. -/
theorem c8_strict_improvement_first_wins (df : DataFrame) (sws lws : List ℕ)
    (sls tps : List ℚ) (s : ℚ)
    (h : ∀ p ∈ paramCombos sws lws sls tps, pipeScore df.close p = some s) :
    tune_hyperparameters df sws lws sls tps = (paramCombos sws lws sls tps).head? := by
  unfold tune_hyperparameters
  rcases hc : paramCombos sws lws sls tps with _ | ⟨p, rest⟩
  · rfl
  · rw [hc] at h
    have hsc : lastCell (pipeline df p).cum_strategy = some s := by
      rw [pipeScore_spec]
      exact h p (List.mem_cons_self p rest)
    have hb : scoreBeats (some s) none = true := rfl
    simp only [tuneAux, hsc, hb, if_true, List.head?_cons]
    apply tuneAux_ties_keep
    intro q hq
    rw [pipeline_close]
    exact h q (List.mem_cons_of_mem p hq)

/-- Witness for C8: on a constant price series every grid cell scores 0,
and the search returns the first enumerated combination. -/
theorem c8_witness :
    tune_hyperparameters (mkDf [1, 1, 1]) [1, 2] [3] [1/2] [1/2] =
      (paramCombos [1, 2] [3] [1/2] [1/2]).head? :=
  c8_strict_improvement_first_wins (mkDf [1, 1, 1]) [1, 2] [3] [1/2] [1/2] 0 (by decide)

lemma optMul_none_left (b : Cell) : optMul none b = none := by
  cases b <;> rfl

lemma getD_take {α : Type} (l : List α) (m i : ℕ) (d : α) (h : i < m) :
    (l.take m).getD i d = l.getD i d := by
  by_cases hl : i < l.length
  · rw [List.getD_eq_getElem _ _ (by simp; omega), List.getD_eq_getElem _ _ hl,
      List.getElem_take]
  · rw [List.getD_eq_default _ _ (by simp; omega), List.getD_eq_default _ _ (by omega)]

/-- Two lists agreeing on their first t+1 entries agree at every index up
to t. -/
lemma getD_take_agree {α : Type} (l1 l2 : List α) (t i : ℕ) (d : α)
    (h : l1.take (t + 1) = l2.take (t + 1)) (hi : i ≤ t) :
    l1.getD i d = l2.getD i d := by
  rw [← getD_take l1 (t + 1) i d (by omega), ← getD_take l2 (t + 1) i d (by omega), h]

/-- The moving average at an index up to t reads only the first t+1 closes. -/
lemma smaAt_agree (w : ℕ) (cs1 cs2 : List ℚ) (t i : ℕ)
    (h : cs1.take (t + 1) = cs2.take (t + 1)) (hi : i ≤ t) :
    smaAt w cs1 i = smaAt w cs2 i := by
  unfold smaAt
  split_ifs with hw
  · have key : ∀ l : List ℚ, (((l.take (t + 1)).drop (i + 1 - w)).take w) =
        (l.drop (i + 1 - w)).take w := by
      intro l
      rw [List.drop_take, List.take_take]
      congr 1
      omega
    rw [← key cs1, ← key cs2, h]
  · rfl

lemma signalAt_agree (sw lw : ℕ) (cs1 cs2 : List ℚ) (t i : ℕ)
    (h : cs1.take (t + 1) = cs2.take (t + 1)) (hi : i ≤ t) :
    signalAt sw lw cs1 i = signalAt sw lw cs2 i := by
  unfold signalAt
  rw [smaAt_agree sw cs1 cs2 t i h hi, smaAt_agree lw cs1 cs2 t i h hi]

lemma pctAt_agree (cs1 cs2 : List ℚ) (t i : ℕ)
    (h : cs1.take (t + 1) = cs2.take (t + 1)) (hi : i ≤ t) :
    pctAt cs1 i = pctAt cs2 i := by
  unfold pctAt
  cases i with
  | zero => rfl
  | succ k =>
    simp only [Nat.add_sub_cancel]
    rw [getD_take_agree cs1 cs2 t (k + 1) 0 h hi,
      getD_take_agree cs1 cs2 t k 0 h (by omega)]

/-- The managed position at an index up to t depends only on the first t+1
closes: the risk loop is a forward pass over signal values that are
themselves windows into the past. -/
lemma managed_agree (sl tp : ℚ) (sw lw : ℕ) (cs1 cs2 : List ℚ) (t : ℕ)
    (h : cs1.take (t + 1) = cs2.take (t + 1)) :
    ∀ j, j ≤ t → j < cs1.length → j < cs2.length →
      (managedCol sl tp cs1 (sigList sw lw cs1)).getD j 0 =
        (managedCol sl tp cs2 (sigList sw lw cs2)).getD j 0 := by
  intro j
  induction j with
  | zero => intro _ _ _; rw [managedCol_getD_zero, managedCol_getD_zero]
  | succ k ih =>
    intro hjt hj1 hj2
    rw [managedCol_getD_succ sl tp cs1 _ (k + 1) (by omega) hj1 (by simp [sigList]),
      managedCol_getD_succ sl tp cs2 _ (k + 1) (by omega) hj2 (by simp [sigList])]
    have e1 := ih (by omega) (by omega) (by omega)
    have e2 : cs1.getD k 0 = cs2.getD k 0 := getD_take_agree cs1 cs2 t k 0 h (by omega)
    have e3 : cs1.getD (k + 1) 0 = cs2.getD (k + 1) 0 :=
      getD_take_agree cs1 cs2 t (k + 1) 0 h hjt
    have e4 : (sigList sw lw cs1).getD (k + 1) 0 = (sigList sw lw cs2).getD (k + 1) 0 := by
      unfold sigList
      rw [rangeMap_getD _ _ _ _ hj1, rangeMap_getD _ _ _ _ hj2]
      exact signalAt_agree sw lw cs1 cs2 t (k + 1) h hjt
    simp only [Nat.add_sub_cancel]
    rw [e1, e2, e3, e4]

/-- C2: the strategy return at t is the period price return at t times 1
when the managed position at t-1 is Long and times 0 otherwise; and the
strategy return at t depends only on the closes up to and including t, so
changing price data strictly after t cannot alter it. -/
theorem c2_no_lookahead :
    (∀ (df : DataFrame) (sl tp : ℚ) (t : ℕ), t < df.close.length →
      (backtest_strategy (apply_risk_management df sl tp)).strategy_return.getD t none =
        optMul ((backtest_strategy (apply_risk_management df sl tp)).daily_return.getD t none)
          (some (if (apply_risk_management df sl tp).managed_position.getD (t - 1) 0 = 1
            then 1 else 0))) ∧
    (∀ (cs1 cs2 : List ℚ) (p : Params) (t : ℕ), t < cs1.length → t < cs2.length →
      cs1.take (t + 1) = cs2.take (t + 1) →
      (pipeline (mkDf cs1) p).strategy_return.getD t none =
        (pipeline (mkDf cs2) p).strategy_return.getD t none) := by
  constructor
  · intro df sl tp t ht
    show ((List.range df.close.length).map fun i =>
        optMul (pctAt df.close i) (shiftAt (managedCol sl tp df.close df.signal) i)).getD t none
      = optMul (((List.range df.close.length).map (pctAt df.close)).getD t none)
        (some (if (managedCol sl tp df.close df.signal).getD (t - 1) 0 = 1 then 1 else 0))
    rw [rangeMap_getD _ _ _ _ ht, rangeMap_getD _ _ _ _ ht]
    cases t with
    | zero =>
      have h0 : pctAt df.close 0 = none := rfl
      rw [h0, optMul_none_left, optMul_none_left]
    | succ k =>
      have hm : (managedCol sl tp df.close df.signal).getD k 0 = 0 ∨
          (managedCol sl tp df.close df.signal).getD k 0 = 1 := by
        by_cases hk : k < (managedCol sl tp df.close df.signal).length
        · rw [List.getD_eq_getElem _ _ hk]
          exact managedCol_mem sl tp df.close df.signal _ (List.getElem_mem hk)
        · rw [List.getD_eq_default _ _ (by omega)]
          exact Or.inl rfl
      simp only [Nat.add_sub_cancel, shiftAt, if_neg (Nat.succ_ne_zero k)]
      rcases hm with hv | hv <;> rw [hv] <;> norm_num
  · intro cs1 cs2 p t ht1 ht2 h
    show ((List.range cs1.length).map fun i =>
        optMul (pctAt cs1 i) (shiftAt (managedCol p.stop_loss p.take_profit cs1
          (sigList p.short_window p.long_window cs1)) i)).getD t none
      = ((List.range cs2.length).map fun i =>
        optMul (pctAt cs2 i) (shiftAt (managedCol p.stop_loss p.take_profit cs2
          (sigList p.short_window p.long_window cs2)) i)).getD t none
    rw [rangeMap_getD _ _ _ _ ht1, rangeMap_getD _ _ _ _ ht2]
    rw [pctAt_agree cs1 cs2 t t h le_rfl]
    cases t with
    | zero => rfl
    | succ k =>
      have hmp := managed_agree p.stop_loss p.take_profit p.short_window p.long_window
        cs1 cs2 (k + 1) h k (by omega) (by omega) (by omega)
      simp only [shiftAt, if_neg (Nat.succ_ne_zero k), Nat.add_sub_cancel, hmp]

/-- Witness for C2: both parts applied on concrete data; the second part
with two series that agree up to index 1 and differ afterwards. -/
theorem c2_witness :
    ((backtest_strategy (apply_risk_management
        { close := [100, 100, 94], signal := [1, 1, 1] } (1/20) (1/10))).strategy_return.getD 1
          none =
      optMul ((backtest_strategy (apply_risk_management
        { close := [100, 100, 94], signal := [1, 1, 1] } (1/20) (1/10))).daily_return.getD 1
          none)
        (some (if (apply_risk_management
          { close := [100, 100, 94], signal := [1, 1, 1] }
            (1/20) (1/10)).managed_position.getD 0 0 = 1 then 1 else 0))) ∧
    (pipeline (mkDf [1, 2, 3]) ⟨1, 2, 1/2, 1/2⟩).strategy_return.getD 1 none =
      (pipeline (mkDf [1, 2, 100]) ⟨1, 2, 1/2, 1/2⟩).strategy_return.getD 1 none :=
  ⟨c2_no_lookahead.1 { close := [100, 100, 94], signal := [1, 1, 1] } (1/20) (1/10) 1
      (by decide),
    c2_no_lookahead.2 [1, 2, 3] [1, 2, 100] ⟨1, 2, 1/2, 1/2⟩ 1 (by decide) (by decide)
      (by decide)⟩

/-- A return column that is missing at index 0 and zero afterwards, as a
list. -/
lemma rangeMap_flat_shape (f : ℕ → Cell) (n : ℕ) (hn : 1 ≤ n) (h0 : f 0 = none)
    (h : ∀ i, 1 ≤ i → i < n → f i = some 0) :
    (List.range n).map f = none :: List.replicate (n - 1) (some 0) := by
  apply List.ext_getElem
  · simp
    omega
  · intro i h1 h2
    rw [List.getElem_map, List.getElem_range]
    cases i with
    | zero => simpa using h0
    | succ k =>
      have hk : k + 1 < n := by simpa using h1
      rw [h (k + 1) (by omega) hk]
      simp

lemma cumGo_ones (m : ℕ) : ∀ a : ℚ, cumGo a (List.replicate m (some 1)) =
    List.replicate m (some a) := by
  induction m with
  | zero => intro a; rfl
  | succ k ih =>
    intro a
    simp only [List.replicate_succ, cumGo, mul_one, ih]

/-- Cumulative returns of a flat return series: missing at index 0, zero
afterwards. -/
lemma cumRet_flat (m : ℕ) :
    cumRet (none :: List.replicate m (some 0)) = none :: List.replicate m (some 0) := by
  unfold cumRet
  simp only [List.map_cons, Option.map_none, Option.map_some, List.map_replicate]
  norm_num
  simp only [cumGo, cumGo_ones]
  norm_num

lemma getLast?_replicate_succ {α : Type} (a : α) (m : ℕ) :
    (List.replicate (m + 1) a).getLast? = some a := by
  induction m with
  | zero => rfl
  | succ k ih =>
    have e : List.replicate (k + 2) a = a :: a :: List.replicate k a := by
      simp [List.replicate_succ]
    rw [e, List.getLast?_cons_cons]
    simpa [List.replicate_succ] using ih

lemma pctAt_replicate (c : ℚ) (n i : ℕ) (hc : c ≠ 0) (h1 : 1 ≤ i) (h2 : i < n) :
    pctAt (List.replicate n c) i = some 0 := by
  unfold pctAt
  have e1 : (List.replicate n c).getD i 0 = c := by
    rw [List.getD_eq_getElem _ _ (by simpa using h2), List.getElem_replicate]
  have e2 : (List.replicate n c).getD (i - 1) 0 = c := by
    rw [List.getD_eq_getElem _ _ (by simp; omega), List.getElem_replicate]
  rw [if_neg (by omega), e1, e2, if_neg hc]
  rw [div_self hc]
  norm_num

/-- Sharpe on a flat strategy-return series is the non-finite sentinel:
with one value the sample std is NaN, with more it is zero. -/
lemma sharpe_flat (m : ℕ) (hm : 1 ≤ m) :
    sharpeMetric (none :: List.replicate m (some (0 : ℚ))) = none := by
  have hf : (none :: List.replicate m (some (0 : ℚ))).filterMap id =
      List.replicate m (0 : ℚ) := by
    induction m with
    | zero => rfl
    | succ k ih => simp [List.replicate_succ] at ih ⊢
  have hmean : seriesMean (none :: List.replicate m (some (0 : ℚ))) = some 0 := by
    unfold seriesMean
    rw [hf]
    simp only [List.length_replicate, List.sum_replicate, smul_zero, zero_div]
    rw [if_neg (show ¬ m = 0 by omega)]
  have hvar : seriesVar (none :: List.replicate m (some (0 : ℚ))) =
      if m < 2 then none else some 0 := by
    unfold seriesVar
    rw [hf]
    by_cases hm2 : m < 2
    · simp [hm2]
    · simp only [List.length_replicate, List.sum_replicate, smul_zero, zero_div,
        List.map_replicate, if_neg hm2]
      norm_num
  unfold sharpeMetric
  rw [hmean, hvar]
  split_ifs with h
  · rfl
  · simp

/-- C9: on a constant positive price series the cumulative market and
strategy returns are 0 at every date after the first, the terminal
cumulative returns are 0, and the Sharpe computation yields the
non-finite sentinel (mean over a zero standard deviation) without any
error: the whole computation is total. -/
theorem c9_constant_series (c : ℚ) (n sw lw : ℕ) (sl tp : ℚ) (hc : 0 < c) (hn : 2 ≤ n) :
    (∀ t, 1 ≤ t → t < n →
      (pipeline (mkDf (List.replicate n c)) ⟨sw, lw, sl, tp⟩).cum_market.getD t none = some 0 ∧
      (pipeline (mkDf (List.replicate n c)) ⟨sw, lw, sl, tp⟩).cum_strategy.getD t none
        = some 0) ∧
    lastCell (pipeline (mkDf (List.replicate n c)) ⟨sw, lw, sl, tp⟩).cum_market = some 0 ∧
    lastCell (pipeline (mkDf (List.replicate n c)) ⟨sw, lw, sl, tp⟩).cum_strategy = some 0 ∧
    sharpeMetric (pipeline (mkDf (List.replicate n c)) ⟨sw, lw, sl, tp⟩).strategy_return
      = none := by
  have hcne : c ≠ 0 := ne_of_gt hc
  have hdr : (List.range (List.replicate n c).length).map (pctAt (List.replicate n c)) =
      none :: List.replicate (n - 1) (some 0) := by
    rw [List.length_replicate]
    exact rangeMap_flat_shape _ n (by omega) rfl
      (fun i h1 h2 => pctAt_replicate c n i hcne h1 h2)
  have hsr : (List.range (List.replicate n c).length).map (fun i =>
      optMul (pctAt (List.replicate n c) i)
        (shiftAt (managedCol sl tp (List.replicate n c)
          (sigList sw lw (List.replicate n c))) i)) =
      none :: List.replicate (n - 1) (some 0) := by
    rw [List.length_replicate]
    apply rangeMap_flat_shape _ n (by omega) rfl
    intro i h1 h2
    rw [pctAt_replicate c n i hcne h1 h2]
    unfold shiftAt
    rw [if_neg (by omega)]
    simp [optMul]
  have hcm : (pipeline (mkDf (List.replicate n c)) ⟨sw, lw, sl, tp⟩).cum_market =
      none :: List.replicate (n - 1) (some 0) := by
    show cumRet ((List.range (List.replicate n c).length).map (pctAt (List.replicate n c))) = _
    rw [hdr, cumRet_flat]
  have hcs : (pipeline (mkDf (List.replicate n c)) ⟨sw, lw, sl, tp⟩).cum_strategy =
      none :: List.replicate (n - 1) (some 0) := by
    show cumRet ((List.range (List.replicate n c).length).map (fun i =>
      optMul (pctAt (List.replicate n c) i)
        (shiftAt (managedCol sl tp (List.replicate n c)
          (sigList sw lw (List.replicate n c))) i))) = _
    rw [hsr, cumRet_flat]
  have hsrf : (pipeline (mkDf (List.replicate n c)) ⟨sw, lw, sl, tp⟩).strategy_return =
      none :: List.replicate (n - 1) (some 0) := hsr
  have hget : ∀ t, 1 ≤ t → t < n →
      ((none : Cell) :: List.replicate (n - 1) (some (0 : ℚ))).getD t none = some 0 := by
    intro t h1 h2
    obtain ⟨k, rfl⟩ : ∃ k, t = k + 1 := ⟨t - 1, by omega⟩
    rw [List.getD_cons_succ, List.getD_eq_getElem _ _ (by simp; omega),
      List.getElem_replicate]
  have hlast : lastCell ((none : Cell) :: List.replicate (n - 1) (some (0 : ℚ))) = some 0 := by
    obtain ⟨m, hm⟩ : ∃ m, n - 1 = m + 1 := ⟨n - 2, by omega⟩
    rw [hm]
    unfold lastCell
    have e : (none : Cell) :: List.replicate (m + 1) (some (0 : ℚ)) =
        none :: some 0 :: List.replicate m (some 0) := by simp [List.replicate_succ]
    rw [e, List.getLast?_cons_cons]
    rw [show (some (0 : ℚ)) :: List.replicate m (some (0 : ℚ)) =
      List.replicate (m + 1) (some (0 : ℚ)) by simp [List.replicate_succ]]
    rw [getLast?_replicate_succ]
  refine ⟨fun t h1 h2 => ⟨?_, ?_⟩, ?_, ?_, ?_⟩
  · rw [hcm]; exact hget t h1 h2
  · rw [hcs]; exact hget t h1 h2
  · rw [hcm]; exact hlast
  · rw [hcs]; exact hlast
  · rw [hsrf]; exact sharpe_flat (n - 1) (by omega)

/-- Witness for C9 on the constant series of four closes at 5. -/
theorem c9_witness :
    (pipeline (mkDf (List.replicate 4 (5 : ℚ))) ⟨1, 2, 1/2, 1/2⟩).cum_market.getD 2 none
      = some 0 ∧
    (pipeline (mkDf (List.replicate 4 (5 : ℚ))) ⟨1, 2, 1/2, 1/2⟩).cum_strategy.getD 2 none
      = some 0 ∧
    lastCell (pipeline (mkDf (List.replicate 4 (5 : ℚ))) ⟨1, 2, 1/2, 1/2⟩).cum_strategy
      = some 0 ∧
    sharpeMetric (pipeline (mkDf (List.replicate 4 (5 : ℚ))) ⟨1, 2, 1/2, 1/2⟩).strategy_return
      = none := by
  have h := c9_constant_series 5 4 1 2 (1/2) (1/2) (by norm_num) (by norm_num)
  exact ⟨(h.1 2 (by norm_num) (by norm_num)).1, (h.1 2 (by norm_num) (by norm_num)).2,
    h.2.2.1, h.2.2.2⟩

